import Mathlib

/-!
Verification development for the web3-kms-signer repository.

The repository bridges generic ECDSA signing backends (remote KMS, local HD
derivation) and Ethereum's signature format.  This file shallowly embeds the
byte-level core of the repository: DER parsing of signatures and
SubjectPublicKeyInfo blobs, EIP-2 low-S canonicalization (`decodeRS`),
recovery-id resolution (`calculateV`), the KMS and HD wallet signing entry
points, the `Signer` orchestration (digest and message signing and its hex
serialization), the EIP-55 checksum-address computation, the BIP44 short-id
helper, and the `0x`-hex input normalization (`bufferOrHex`).

Buffers are `List Nat` (one `Nat` per byte); JavaScript strings are
`List Char`.  External cryptographic primitives (secp256k1 point recovery,
keccak-based address derivation, private-to-public derivation, deterministic
signing) are parameters gathered in an `ECModel`; the thin layer of
@ethereumjs/util around them (`ecsign` v-encoding, `ecrecover`'s recovery-id
guard) is modelled from the spec's EIP-155 description of those collaborators.
-/

/-- Big-endian byte-list to natural number, accumulator form
(mirrors bn.js `new BN(buffer)` which reads a buffer as an unsigned
big-endian integer). -/
def bytesToNatAux (acc : Nat) : List Nat → Nat
  | [] => acc
  | b :: rest => bytesToNatAux (acc * 256 + b) rest

/-- Big-endian byte-list to natural number. -/
def bytesToNat (l : List Nat) : Nat := bytesToNatAux 0 l

/-- Big-endian byte expansion of a natural number, with explicit structural
fuel so that the definition reduces by `decide`.  With `fuel ≥ n` the result
is the minimal big-endian expansion of `n` (empty for `n = 0`). -/
def natBytesGo : Nat → Nat → List Nat
  | 0, _ => []
  | fuel + 1, n => if n = 0 then [] else natBytesGo fuel (n / 256) ++ [n % 256]

/-- Minimal big-endian byte expansion of a natural number (empty for 0). -/
def natBytes (n : Nat) : List Nat := natBytesGo n n

/-- bn.js `toBuffer` / @ethereumjs/util `bigIntToBuffer`: minimal big-endian
bytes, with the zero value rendered as a single `0x00` byte. -/
def bigIntToBuffer (n : Nat) : List Nat := if n = 0 then [0] else natBytes n

/-- One hexadecimal digit as a lowercase character (0-9, a-f), as produced by
JavaScript `Buffer.prototype.toString('hex')` and `Number.prototype.toString(16)`. -/
def hexDigit (n : Nat) : Char := Char.ofNat (if n < 10 then 48 + n else 87 + n)

/-- Lowercase hex rendering of a byte list (two characters per byte),
mirroring `buffer.toString('hex')`. -/
def bytesToHex : List Nat → List Char
  | [] => []
  | b :: rest => hexDigit (b / 16) :: hexDigit (b % 16) :: bytesToHex rest

/-- Value of one hex character, accepting both cases, as JavaScript
`Buffer.from(str, 'hex')` does. -/
def hexVal (c : Char) : Option Nat :=
  if 48 ≤ c.toNat ∧ c.toNat ≤ 57 then some (c.toNat - 48)
  else if 97 ≤ c.toNat ∧ c.toNat ≤ 102 then some (c.toNat - 87)
  else if 65 ≤ c.toNat ∧ c.toNat ≤ 70 then some (c.toNat - 55)
  else none

/-- JavaScript `Buffer.from(str, 'hex')`: decodes leading full hex pairs and
stops silently at the first non-hex pair or at a dangling final character. -/
def hexDecodeJS : List Char → List Nat
  | c1 :: c2 :: rest =>
    match hexVal c1, hexVal c2 with
    | some h, some l => (16 * h + l) :: hexDecodeJS rest
    | _, _ => []
  | _ => []

/-- JavaScript per-character `toUpperCase` restricted to ASCII. -/
def upChar (c : Char) : Char :=
  if 97 ≤ c.toNat ∧ c.toNat ≤ 122 then Char.ofNat (c.toNat - 32) else c

/-- JavaScript per-character `toLowerCase` restricted to ASCII. -/
def downChar (c : Char) : Char :=
  if 65 ≤ c.toNat ∧ c.toNat ≤ 90 then Char.ofNat (c.toNat + 32) else c

/-- JavaScript `String.prototype.toLowerCase` over our character lists. -/
def toLowerList (s : List Char) : List Char := s.map downChar

/-- The character is a lowercase hexadecimal digit. -/
def isLowerHexChar (c : Char) : Bool :=
  (48 ≤ c.toNat ∧ c.toNat ≤ 57) ∨ (97 ≤ c.toNat ∧ c.toNat ≤ 102)

/-- Read a definite-form DER length: a single byte below 0x80, or a byte
0x80+k followed by k big-endian length bytes.  Returns the length and the
remaining input.  Models the length handling of the asn1js decoder used by
`USignatureECDSA.decodeRS` and `UPublickey.fromPublickeyDerEncoding`. -/
def readLen : List Nat → Option (Nat × List Nat)
  | [] => none
  | b :: rest =>
    if b < 128 then some (b, rest)
    else
      let k := b - 128
      if k = 0 then none
      else if rest.length < k then none
      else some (bytesToNat (rest.take k), rest.drop k)

/-- Read one DER tag-length-value element with the expected tag byte,
returning its content octets and the remaining input. -/
def readTLV (expectedTag : Nat) (input : List Nat) : Option (List Nat × List Nat) :=
  match input with
  | [] => none
  | t :: rest =>
    if t = expectedTag then
      match readLen rest with
      | none => none
      | some (len, rest2) =>
        if rest2.length < len then none
        else some (rest2.take len, rest2.drop len)
    else none

/-- Encode a DER definite-form length (short form below 0x80, long form
otherwise). -/
def encodeLen (n : Nat) : List Nat :=
  if n < 128 then [n] else (128 + (natBytes n).length) :: natBytes n

/-- Assemble one DER tag-length-value element. -/
def mkTLV (tag : Nat) (content : List Nat) : List Nat :=
  tag :: encodeLen content.length ++ content

/-- The asn1js schema used by `USignatureECDSA.decodeRS`: a SEQUENCE of two
INTEGERs (RFC 3279 section 2.2.3).  Returns the content octets of `r` and `s`. -/
def derParseRS (input : List Nat) : Option (List Nat × List Nat) :=
  match readTLV 48 input with
  | none => none
  | some (content, rest) =>
    if rest = [] then
      match readTLV 2 content with
      | none => none
      | some (rContent, rest1) =>
        match readTLV 2 rest1 with
        | none => none
        | some (sContent, rest2) => if rest2 = [] then some (rContent, sContent) else none
    else none

/-- The secp256k1 curve order `N` (the constant `secp256k1N` in
`USignatureECDSA.decodeRS`). -/
def secp256k1N : Nat :=
  0xfffffffffffffffffffffffffffffffebaaedce6af48a03bbfd25e8cd0364141

/-- bn.js `toBuffer` on a possibly negative big number: bn.js serializes the
absolute value (the sign is carried separately and is dropped by `toBuffer`). -/
def bnToBufferInt (i : Int) : List Nat := bigIntToBuffer i.natAbs

/-- `USignatureECDSA.decodeRS`: parse a DER ECDSA signature into `r` and `s`,
applying the EIP-2 low-S normalization (`s > N/2` is replaced by `N - s`),
and re-encode both as minimal big-endian buffers (`BN.toBuffer`).
`none` models the thrown parse error. -/
def USignatureECDSA.decodeRS (signature : List Nat) : Option (List Nat × List Nat) :=
  match derParseRS signature with
  | none => none
  | some (rContent, sContent) =>
    let r : Nat := bytesToNat rContent
    let s0 : Int := (bytesToNat sContent : Int)
    let secp256k1halfN : Nat := secp256k1N / 2
    let s : Int := if s0 > (secp256k1halfN : Int) then (secp256k1N : Int) - s0 else s0
    some (bigIntToBuffer r, bnToBufferInt s)

/-- The asn1js schema check of `UPublickey.fromPublickeyDerEncoding`
(RFC 5480 SubjectPublicKeyInfo): a SEQUENCE containing an
algorithm-identifier SEQUENCE (whose first child must be an OBJECT
IDENTIFIER) and a BIT STRING.  asn1js `compareSchema` matches the schema's
children against the leading children of a constructed value and ignores
surplus children, so further elements after the first OID (RFC 5480
secp256k1 keys carry a second, named-curve OID), after the BIT STRING, and
after the root element are all accepted.  Returns the BIT STRING payload
(asn1js `valueBlock.valueHex`, i.e. the content octets without the leading
unused-bits count byte). -/
def parseSPKI (input : List Nat) : Option (List Nat) :=
  match readTLV 48 input with
  | none => none
  | some (content, _) =>
    match readTLV 48 content with
    | none => none
    | some (algContent, rest1) =>
      match readTLV 6 algContent with
      | none => none
      | some _ =>
        match readTLV 3 rest1 with
        | none => none
        | some (bsContent, _) =>
          match bsContent with
          | [] => none
          | _ :: payload => some payload

/-- Assemble a well-formed SubjectPublicKeyInfo blob: a SEQUENCE of an
algorithm-identifier SEQUENCE (one OBJECT IDENTIFIER with the given content
octets, followed by arbitrary further elements `algRest`, e.g. the
named-curve OID of a secp256k1 key) and a BIT STRING whose content octets
are the unused-bits count byte followed by `bsData`. -/
def mkSPKI (oid algRest : List Nat) (unusedBits : Nat) (bsData : List Nat) : List Nat :=
  mkTLV 48 (mkTLV 48 (mkTLV 6 oid ++ algRest) ++ mkTLV 3 (unusedBits :: bsData))

/-- `UPublickey.fromPublickeyDerEncoding`: verify the SubjectPublicKeyInfo
schema (`Except.error` models the thrown parse error) and return the BIT
STRING payload with its first byte (the `0x04` uncompressed-point marker)
removed. -/
def UPublickey.fromPublickeyDerEncoding (input : List Nat) : Except (List Char) (List Nat) :=
  match parseSPKI input with
  | none => Except.error ("Publickey: failed to parse.".data)
  | some payload => Except.ok (payload.drop 1)

/-- `true` exactly on `Except.error`, modelling a thrown JavaScript error. -/
def exceptIsError {ε α : Type} : Except ε α → Bool
  | Except.error _ => true
  | Except.ok _ => false

instance {ε α : Type} [DecidableEq ε] [DecidableEq α] : DecidableEq (Except ε α) := fun a b =>
  match a, b with
  | Except.error e, Except.error f =>
    if h : e = f then isTrue (by rw [h]) else isFalse (by intro hc; injection hc; contradiction)
  | Except.error _, Except.ok _ => isFalse (by intro hc; exact Except.noConfusion hc)
  | Except.ok _, Except.error _ => isFalse (by intro hc; exact Except.noConfusion hc)
  | Except.ok x, Except.ok y =>
    if h : x = y then isTrue (by rw [h]) else isFalse (by intro hc; injection hc; contradiction)

/-- The external elliptic-curve and hashing primitives consumed by the
repository, kept abstract exactly as the spec treats them (curve operations
and keccak are collaborator capabilities, not part of the core):
`recoverPub` is secp256k1 public-key recovery at a given recovery bit,
`keccakAddr` is @ethereumjs/util `publicToAddress` (keccak-256 then last 20
bytes), `pubOf` is `privateToPublic`, and `signRS` is deterministic ECDSA
signing returning `(r, s, recoveryBit)`. -/
structure ECModel where
  recoverPub : List Nat → Bool → List Nat → List Nat → List Nat
  keccakAddr : List Nat → List Nat
  pubOf : List Nat → List Nat
  signRS : List Nat → List Nat → List Nat × List Nat × Bool

/-- Modelled from the spec: @ethereumjs/util `ecsign(digest, privateKey,
chainId?)` as used by `NodeWallet.ecsign`.  The recovery bit is encoded as
`v = recid + 27` when `chainId` is `undefined` and `v = recid + 35 +
2*chainId` when a chain id is passed (the spec's EIP-155 replay-protected
encoding; the library tests `chainId === undefined`, not truthiness). -/
def ethutilEcsign (m : ECModel) (digest privkey : List Nat) (chainId : Option Nat) :
    List Nat × List Nat × Int :=
  let rs := m.signRS privkey digest
  (rs.1, rs.2.1,
    match chainId with
    | none => if rs.2.2 then 28 else 27
    | some c => (if rs.2.2 then 36 else 35) + 2 * (c : Int))

/-- Modelled from the spec: the recovery-id extraction inside
@ethereumjs/util `ecrecover`: `v` itself when it is already 0 or 1,
`v - 27` for legacy signatures, `v - (2*chainId + 35)` when a chain id is
passed. -/
def calculateSigRecovery (v : Int) (chainId : Option Nat) : Int :=
  if v = 0 ∨ v = 1 then v
  else
    match chainId with
    | none => v - 27
    | some c => v - (2 * (c : Int) + 35)

/-- Modelled from the spec: @ethereumjs/util `ecrecover(digest, v, r, s,
chainId?)`.  The recovery id must come out as 0 or 1, otherwise the library
throws (modelled as `none`); on success the recovered 64-byte public key is
returned. -/
def ethutilEcrecover (m : ECModel) (digest : List Nat) (v : Int) (r s : List Nat)
    (chainId : Option Nat) : Option (List Nat) :=
  let recovery := calculateSigRecovery v chainId
  if recovery = 0 then some (m.recoverPub digest false r s)
  else if recovery = 1 then some (m.recoverPub digest true r s)
  else none

/-- `UPublickey.fromVRS(digest, v, r, s, chainId).getAddress()`: recover the
public key and derive its address; `none` models the error thrown by
`ecrecover`. -/
def UPublickey.fromVRSGetAddress (m : ECModel) (digest : List Nat) (v : Int)
    (r s : List Nat) (chainId : Option Nat) : Option (List Nat) :=
  (ethutilEcrecover m digest v r s chainId).map m.keccakAddr

/-- JavaScript truthiness of the optional `chainId` argument: `undefined`
and `0n` are both falsy. -/
def jsTruthy : Option Nat → Bool
  | none => false
  | some c => decide (c ≠ 0)

/-- The first candidate recovery id computed by `USignatureECDSA.calculateV`:
`(chainId) ? (chainId * 2n + 35n) : 27n`. -/
def USignatureECDSA.candidate_1 (chainId : Option Nat) : Int :=
  if jsTruthy chainId then (chainId.getD 0 : Int) * 2 + 35 else 27

/-- The second candidate recovery id computed by `USignatureECDSA.calculateV`:
`(chainId) ? (chainId * 2n + 36n) : 28n`. -/
def USignatureECDSA.candidate_2 (chainId : Option Nat) : Int :=
  if jsTruthy chainId then (chainId.getD 0 : Int) * 2 + 36 else 28

/-- `USignatureECDSA.calculateV(address, digest, r, s, chainId)`: try
`candidate_1`, compare the recovered address with the target, then try
`candidate_2`; return `-1n` when neither matches.  `none` models an error
thrown by the underlying `ecrecover` call. -/
def USignatureECDSA.calculateV (m : ECModel) (address digest r s : List Nat)
    (chainId : Option Nat) : Option Int :=
  let c1 := USignatureECDSA.candidate_1 chainId
  let c2 := USignatureECDSA.candidate_2 chainId
  match UPublickey.fromVRSGetAddress m digest c1 r s chainId with
  | none => none
  | some a1 =>
    if a1 = address then some c1
    else
      match UPublickey.fromVRSGetAddress m digest c2 r s chainId with
      | none => none
      | some a2 => if a2 = address then some c2 else some (-1)

/-- The Ethereum-shaped signature returned by the wallets
(`Types/ECDSASignature`). -/
structure ECDSASignature where
  r : List Nat
  s : List Nat
  v : Int
deriving DecidableEq

/-- `NodeWallet.ecsign(KeyId, digest, chainId?)`: sign the digest with the
locally derived private key via @ethereumjs/util `ecsign` (the BIP44
derivation of the private key from the mnemonic is abstracted by quantifying
over the private key itself). -/
def NodeWallet.ecsign (m : ECModel) (privkey digest : List Nat) (chainId : Option Nat) :
    ECDSASignature :=
  let rsv := ethutilEcsign m digest privkey chainId
  { r := rsv.1, s := rsv.2.1, v := rsv.2.2 }

/-- `UPublickey.fromPrivatekey(k).getAddress()`: the address of the public
key derived from a private key. -/
def addressOfPrivkey (m : ECModel) (privkey : List Nat) : List Nat :=
  m.keccakAddr (m.pubOf privkey)

/-- The address-resolution line of `KMSWallets.ecsign`:
`(!account.address) ? await this.getAddress(account.keyId) :
account.address` — the supplied account address when present (a Buffer is
always truthy), otherwise the address derived from the provider's public
key (passed here as `backendAddress`). -/
def KMSWallets.resolveAddress (accountAddress : Option (List Nat))
    (backendAddress : List Nat) : List Nat :=
  match accountAddress with
  | none => backendAddress
  | some a => a

/-- `KMSWallets.ecsign(account, digest, chainId?)`: decode the provider's
DER signature with `decodeRS`, resolve the target address
(`account.address` when supplied, otherwise the address derived from the
provider's public key, passed here as `backendAddress`), resolve `v` with
`calculateV`, and throw when `v` comes back as `-1n`.  `Except.error`
models the thrown errors (parse failure, `ecrecover` failure, and the
`"ServerKMS: v is invalid."` rejection). -/
def KMSWallets.ecsign (m : ECModel) (derSignature : List Nat)
    (accountAddress : Option (List Nat)) (backendAddress digest : List Nat)
    (chainId : Option Nat) : Except (List Char) ECDSASignature :=
  match USignatureECDSA.decodeRS derSignature with
  | none => Except.error ("USignatureECDSA: failed to parse.".data)
  | some (r, s) =>
    let address := KMSWallets.resolveAddress accountAddress backendAddress
    match USignatureECDSA.calculateV m address digest r s chainId with
    | none => Except.error ("Invalid signature v value".data)
    | some v =>
      if v = -1 then Except.error ("ServerKMS: v is invalid.".data)
      else Except.ok { r := r, s := s, v := v }

/-- A value that is either a Buffer or a JavaScript string
(`Buffer | string` in the source's signatures). -/
def BufferOrString : Type := Sum (List Nat) (List Char)

/-- JavaScript `String.prototype.replace('0x', '')`: remove the first
occurrence of the substring `0x`, wherever it occurs; scan left to right. -/
def replaceFirst0x : List Char → List Char
  | [] => []
  | c :: rest =>
    match rest with
    | [] => [c]
    | r1 :: rtail =>
      if c = '0' ∧ r1 = 'x' then rtail else c :: replaceFirst0x rest

/-- Whether the string contains the substring `0x`. -/
def has0x : List Char → Bool
  | [] => false
  | c :: rest =>
    match rest with
    | [] => false
    | r1 :: _ => if c = '0' ∧ r1 = 'x' then true else has0x rest

/-- `UBuffer.bufferOrHex(input)`: a Buffer is returned unchanged; a string
has its first `0x` occurrence removed by `String.replace` and is then
hex-decoded by `Buffer.from(..., 'hex')`. -/
def UBuffer.bufferOrHex : BufferOrString → List Nat
  | Sum.inl buf => buf
  | Sum.inr str => hexDecodeJS (replaceFirst0x str)

/-- `UAddress.fromAddress(input).getAddress()`: the stored address buffer is
the `bufferOrHex` normalization of the input. -/
def UAddress.fromAddressGetAddress (input : BufferOrString) : List Nat :=
  UBuffer.bufferOrHex input

/-- `UPublickey.fromPublickey(input).getPublickey()`: the stored public-key
buffer is the `bufferOrHex` normalization of the input. -/
def UPublickey.fromPublickeyGetPublickey (input : BufferOrString) : List Nat :=
  UBuffer.bufferOrHex input

/-- `UPublickey.fromPrivatekey(input).getPublickey()`: `privateToPublic`
applied to the `bufferOrHex` normalization of the input. -/
def UPublickey.fromPrivatekeyGetPublickey (m : ECModel) (input : BufferOrString) : List Nat :=
  m.pubOf (UBuffer.bufferOrHex input)

/-- `ethutil.bufferToHex(addr).toLowerCase()` as in `UAddress.getAddressHex`:
the `0x`-prefixed lowercase hex of the address bytes. -/
def UAddress.getAddressHex (address : List Nat) : List Char :=
  toLowerList ('0' :: 'x' :: bytesToHex address)

/-- `stripHexPrefix` of @ethereumjs/util: drop one leading `0x` if present. -/
def stripHexPrefix (s : List Char) : List Char :=
  match s with
  | '0' :: 'x' :: rest => rest
  | _ => s

/-- The casing loop of @ethereumjs/util `toChecksumAddress`: uppercase the
i-th address character when the i-th keccak nibble is at least 8 (a missing
nibble behaves like `parseInt(undefined, 16) >= 8`, i.e. false). -/
def applyChecksumCase : List Char → List Nat → List Char
  | [], _ => []
  | c :: cs, [] => c :: applyChecksumCase cs []
  | c :: cs, h :: hs => (if 8 ≤ h then upChar c else c) :: applyChecksumCase cs hs

/-- Modelled from the spec: @ethereumjs/util `toChecksumAddress(hexAddress)`
(EIP-55), parameterized by the keccak-256 nibble sequence of the lowercase
address characters (`keccakNibbles` stands for
`keccak256(utf8(address)).toString('hex')` read digit by digit). -/
def toChecksumAddress (keccakNibbles : List Char → List Nat) (hexAddress : List Char) :
    List Char :=
  let address := toLowerList (stripHexPrefix hexAddress)
  let hash := keccakNibbles address
  '0' :: 'x' :: applyChecksumCase address hash

/-- `UAddress.getChecksumAddress()` on an address buffer:
`toChecksumAddress(getAddressHex())`. -/
def UAddress.getChecksumAddress (keccakNibbles : List Char → List Nat)
    (address : List Nat) : List Char :=
  toChecksumAddress keccakNibbles (UAddress.getAddressHex address)

/-- The input accepted by `UBIP44.keyId`: a string `"{account}-{index}"` or
`"{index}"`, or an object `{account?, index}`. -/
inductive BIP44ShortId where
  | str (s : List Char)
  | obj (account : Option Nat) (index : Nat)

/-- The string consists of one or more ASCII digits (`^\d+$`). -/
def allDigits1 (s : List Char) : Bool :=
  !s.isEmpty && s.all (fun c => 48 ≤ c.toNat ∧ c.toNat ≤ 57)

/-- JavaScript `String.prototype.split('-')`. -/
def splitDash : List Char → List (List Char)
  | [] => [[]]
  | c :: rest =>
    if c = '-' then [] :: splitDash rest
    else
      match splitDash rest with
      | [] => [[c]]
      | g :: gs => (c :: g) :: gs

/-- The string matches `^\d+-\d+$`: exactly one dash with nonempty digit
runs on both sides. -/
def matchesAccountDashIndex (s : List Char) : Bool :=
  match splitDash s with
  | [a, b] => allDigits1 a && allDigits1 b
  | _ => false

/-- The apostrophe character used in derivation paths. -/
def tickChar : Char := Char.ofNat 39

/-- The `'/0/` infix of the produced derivation paths. -/
def pathInfix : List Char := tickChar :: '/' :: '0' :: '/' :: []

/-- `UBIP44.keyId(shortId)` of the `@web3-kms-signer/hd-wallets` package:
`"{account}-{index}"` maps to `"{account}'/0/{index}"`, a bare `"{index}"`
maps to `"0'/0/{index}"` (account defaulting to 0, also for a falsy object
field), and any other string throws the bad-format error. -/
def UBIP44.keyId : BIP44ShortId → Except (List Char) (List Char)
  | BIP44ShortId.str s =>
    if matchesAccountDashIndex s then
      match splitDash s with
      | account :: index :: _ => Except.ok (account ++ pathInfix ++ index)
      | _ => Except.error ("bad shortId format".data)
    else if allDigits1 s then
      Except.ok ('0' :: pathInfix ++ s)
    else
      Except.error ("bad shortId format".data)
  | BIP44ShortId.obj acc idx =>
    let account := match acc with
      | none => 0
      | some a => if a = 0 then 0 else a
    Except.ok (Nat.toDigits 10 account ++ pathInfix ++ Nat.toDigits 10 idx)

/-- The legacy `UBIP44.keyId` of the pre-monorepo `src/Utils` tree: same
parsing, but the produced path is prefixed with `m/44'/0'/`. -/
def UBIP44.keyIdLegacy (shortId : BIP44ShortId) : Except (List Char) (List Char) :=
  match UBIP44.keyId shortId with
  | Except.error e => Except.error e
  | Except.ok path =>
    Except.ok ('m' :: '/' :: '4' :: '4' :: tickChar :: '/' :: '0' :: tickChar :: '/' :: path)

/-- `BigInt.asIntN(256, n)`: interpret a (buffer-read) unsigned value as a
256-bit two's-complement signed integer (@ethereumjs/util `fromSigned`). -/
def asIntN256 (n : Nat) : Int :=
  let u : Nat := n % 2 ^ 256
  if u < 2 ^ 255 then (u : Int) else (u : Int) - 2 ^ 256

/-- `BigInt.asUintN(256, i)`: reduce a signed integer to its unsigned
256-bit representative (@ethereumjs/util `toUnsigned` before buffering). -/
def asUintN256 (i : Int) : Nat := (i % (2 ^ 256 : Int)).toNat

/-- @ethereumjs/util `fromSigned(buffer)`. -/
def ethutilFromSigned (buf : List Nat) : Int := asIntN256 (bytesToNat buf)

/-- @ethereumjs/util `toUnsigned(i)`: minimal big-endian buffer of the
unsigned 256-bit representative. -/
def ethutilToUnsigned (i : Int) : List Nat := bigIntToBuffer (asUintN256 i)

/-- The account object handed to `Signer` methods
(`{ keyId: string, address?: Buffer }`). -/
structure SignerAccount where
  keyId : List Char
  address : Option (List Nat)

/-- The wallet capability consumed by `Signer`: `wallets.ecsign(account,
digest, chainId?)`, totalized over successful runs. -/
def WalletEcsign : Type := SignerAccount → List Nat → Option Nat → ECDSASignature

/-- The `Signer` orchestrator: a wallet and the `common` network
configuration, of which only the chain id is relevant here. -/
structure Signer where
  wallets : WalletEcsign
  common : Option Nat

/-- The `Signer` constructor: `common = (chainId) ? Common.custom({chainId})
: undefined` — JavaScript truthiness, so a chain id of 0 leaves `common`
undefined. -/
def Signer.make (wallets : WalletEcsign) (chainId : Option Nat) : Signer :=
  { wallets := wallets, common := if jsTruthy chainId then chainId else none }

/-- JavaScript `String.prototype.padStart(n, c)`. -/
def padStartList (n : Nat) (c : Char) (s : List Char) : List Char :=
  List.replicate (n - s.length) c ++ s

/-- `Signer.signDigest` of the pre-monorepo `src/Signer.ts`: the wallet is
called without a chain id, and `r`, `s`, `v` are hex-encoded at their
minimal byte length (no padding) after the `toUnsigned(fromSigned(...))`
normalization; the result carries the `0x` prefix.  (`v` is never negative
on this path, so `Int.toNat` is exact.) -/
def Signer.signDigest (sg : Signer) (account : SignerAccount)
    (digest : BufferOrString) : List Char :=
  let sig := sg.wallets account (UBuffer.bufferOrHex digest) none
  let rStr := bytesToHex (ethutilToUnsigned (ethutilFromSigned sig.r))
  let sStr := bytesToHex (ethutilToUnsigned (ethutilFromSigned sig.s))
  let vStr := bytesToHex (bigIntToBuffer sig.v.toNat)
  '0' :: 'x' :: (rStr ++ sStr ++ vStr)

/-- `Signer.signDigest` of the published `@web3-kms-signer/core` package
(`dist/Signer.js`): same pipeline, but `r` and `s` are padded to 64 hex
characters and `v` to at least 2. -/
def Signer.signDigestDist (sg : Signer) (account : SignerAccount)
    (digest : BufferOrString) : List Char :=
  let sig := sg.wallets account (UBuffer.bufferOrHex digest) none
  let rStr := padStartList 64 '0' (bytesToHex (ethutilToUnsigned (ethutilFromSigned sig.r)))
  let sStr := padStartList 64 '0' (bytesToHex (ethutilToUnsigned (ethutilFromSigned sig.s)))
  let vStr := padStartList 2 '0' (bytesToHex (bigIntToBuffer sig.v.toNat))
  '0' :: 'x' :: (rStr ++ sStr ++ vStr)

/-- `Signer.signMessage` (src tree): hash the message with
`hashPersonalMessage` (kept abstract as `H`) and delegate to `signDigest`. -/
def Signer.signMessage (H : List Char → List Nat) (sg : Signer)
    (account : SignerAccount) (message : List Char) : List Char :=
  Signer.signDigest sg account (Sum.inl (H message))

/-- `Signer.signMessage` (dist): delegates to the padded `signDigest`. -/
def Signer.signMessageDist (H : List Char → List Nat) (sg : Signer)
    (account : SignerAccount) (message : List Char) : List Char :=
  Signer.signDigestDist sg account (Sum.inl (H message))

/-- A small concrete instance of the abstract curve primitives, used to
evaluate the signing/recovery pipeline on closed inputs: recovery with the
correct recovery bit (false) returns the signer's public key `[1]`, the
wrong bit returns the distinct key `[2]`, and addresses are the keys
themselves. -/
def toyEC : ECModel where
  recoverPub := fun _ b _ _ => if b then [2] else [1]
  keccakAddr := fun p => p
  pubOf := fun _ => [1]
  signRS := fun _ _ => ([5], [6], false)

/-- A concrete instance of the curve primitives whose recovery always
returns the public key `[7]`, used to drive `calculateV` and
`KMSWallets.ecsign` into their success branch on closed inputs. -/
def constEC : ECModel where
  recoverPub := fun _ _ _ _ => [7]
  keccakAddr := fun p => p
  pubOf := fun _ => [7]
  signRS := fun _ _ => ([1], [1], false)

/-- A concrete wallet capability returning a fixed signature with one-byte
`r` and `s`, used to evaluate `Signer.signDigest` on closed inputs. -/
def toyWallet : WalletEcsign := fun _ _ _ => { r := [1], s := [2], v := 27 }

/-- The buffer is a minimal big-endian encoding as produced by bn.js
`toBuffer`: no leading zero byte, except the canonical single `0x00` byte
for the value zero. -/
def isMinimalBE (l : List Nat) : Bool :=
  l == [0] || (!l.isEmpty && l.headD 0 != 0)

theorem bytesToNatAux_eq (l : List Nat) :
    ∀ acc, bytesToNatAux acc l = acc * 256 ^ l.length + bytesToNatAux 0 l := by
  induction l with
  | nil => intro acc; simp [bytesToNatAux]
  | cons b rest ih =>
    intro acc
    show bytesToNatAux (acc * 256 + b) rest =
      acc * 256 ^ (b :: rest).length + bytesToNatAux (0 * 256 + b) rest
    rw [ih (acc * 256 + b), ih (0 * 256 + b)]
    simp only [List.length_cons]
    ring

theorem bytesToNat_append_singleton (l : List Nat) (b : Nat) :
    bytesToNat (l ++ [b]) = 256 * bytesToNat l + b := by
  induction l with
  | nil => simp [bytesToNat, bytesToNatAux]
  | cons c rest ih =>
    show bytesToNatAux (0 * 256 + c) (rest ++ [b]) =
      256 * bytesToNatAux (0 * 256 + c) rest + b
    rw [bytesToNatAux_eq (rest ++ [b]), bytesToNatAux_eq rest]
    have hih : bytesToNatAux 0 (rest ++ [b]) = 256 * bytesToNatAux 0 rest + b := ih
    rw [hih]
    simp only [List.length_append, List.length_singleton]
    ring

theorem natBytesGo_zero (fuel : Nat) : natBytesGo fuel 0 = [] := by
  cases fuel <;> simp [natBytesGo]

theorem bytesToNat_natBytesGo (fuel : Nat) :
    ∀ n, n ≤ fuel → bytesToNat (natBytesGo fuel n) = n := by
  induction fuel with
  | zero =>
    intro n hn
    interval_cases n
    simp [natBytesGo, bytesToNat, bytesToNatAux]
  | succ f ih =>
    intro n hn
    by_cases h0 : n = 0
    · subst h0; simp [natBytesGo, bytesToNat, bytesToNatAux]
    · have hlt : n / 256 < n := Nat.div_lt_self (Nat.pos_of_ne_zero h0) (by norm_num)
      have hle : n / 256 ≤ f := by omega
      simp only [natBytesGo, h0, if_false]
      rw [bytesToNat_append_singleton, ih _ hle]
      omega

theorem bytesToNat_natBytes (n : Nat) : bytesToNat (natBytes n) = n :=
  bytesToNat_natBytesGo n n (le_refl n)

theorem bytesToNat_bigIntToBuffer (n : Nat) : bytesToNat (bigIntToBuffer n) = n := by
  by_cases h : n = 0
  · subst h; simp [bigIntToBuffer, bytesToNat, bytesToNatAux]
  · simp [bigIntToBuffer, h, bytesToNat_natBytes]

theorem natBytesGo_length (fuel : Nat) :
    ∀ n k, n ≤ fuel → n < 256 ^ k → (natBytesGo fuel n).length ≤ k := by
  induction fuel with
  | zero =>
    intro n k hn _
    interval_cases n
    simp [natBytesGo]
  | succ f ih =>
    intro n k hn hk
    by_cases h0 : n = 0
    · subst h0; simp [natBytesGo]
    · have hkpos : k ≠ 0 := by
        intro h; subst h; simp at hk; omega
      obtain ⟨k', rfl⟩ : ∃ k', k = k' + 1 := ⟨k - 1, by omega⟩
      have hlt : n / 256 < n := Nat.div_lt_self (Nat.pos_of_ne_zero h0) (by norm_num)
      have hdivk : n / 256 < 256 ^ k' := by
        rw [Nat.div_lt_iff_lt_mul (by norm_num : 0 < 256)]
        calc n < 256 ^ (k' + 1) := hk
        _ = 256 ^ k' * 256 := by rw [pow_succ]
      simp only [natBytesGo, h0, if_false, List.length_append, List.length_cons,
        List.length_nil]
      have := ih (n / 256) k' (by omega) hdivk
      omega

theorem natBytes_length (n k : Nat) (h : n < 256 ^ k) : (natBytes n).length ≤ k :=
  natBytesGo_length n n k (le_refl n) h

theorem natBytesGo_head (fuel : Nat) :
    ∀ n, n ≤ fuel → n ≠ 0 →
      natBytesGo fuel n ≠ [] ∧ (natBytesGo fuel n).headD 0 ≠ 0 := by
  induction fuel with
  | zero => intro n hn h0; omega
  | succ f ih =>
    intro n hn h0
    have hlt : n / 256 < n := Nat.div_lt_self (Nat.pos_of_ne_zero h0) (by norm_num)
    simp only [natBytesGo, h0, if_false]
    by_cases hq : n / 256 = 0
    · have hn256 : n < 256 := by
        by_contra hge
        have : 1 ≤ n / 256 := Nat.le_div_iff_mul_le (by norm_num) |>.2 (by omega)
        omega
      rw [hq, natBytesGo_zero]
      have : n % 256 = n := Nat.mod_eq_of_lt hn256
      simp [this, h0]
    · obtain ⟨hne, hhd⟩ := ih (n / 256) (by omega) hq
      obtain ⟨a, rest, hcase⟩ := List.exists_cons_of_ne_nil hne
      rw [hcase] at hhd
      constructor
      · simp
      · rw [hcase]
        simpa using hhd

theorem natBytesGo_mem_lt (fuel : Nat) :
    ∀ n b, b ∈ natBytesGo fuel n → b < 256 := by
  induction fuel with
  | zero => intro n b hb; simp [natBytesGo] at hb
  | succ f ih =>
    intro n b hb
    by_cases h0 : n = 0
    · subst h0; simp [natBytesGo] at hb
    · simp only [natBytesGo, h0, if_false, List.mem_append, List.mem_singleton] at hb
      rcases hb with hb | hb
      · exact ih _ _ hb
      · subst hb; exact Nat.mod_lt _ (by norm_num)

theorem bigIntToBuffer_mem_lt (n b : Nat) (hb : b ∈ bigIntToBuffer n) : b < 256 := by
  by_cases h : n = 0
  · subst h; simp [bigIntToBuffer] at hb; omega
  · simp only [bigIntToBuffer, h, if_false] at hb
    exact natBytesGo_mem_lt n n b hb

theorem bigIntToBuffer_length (n k : Nat) (hk : 1 ≤ k) (h : n < 256 ^ k) :
    (bigIntToBuffer n).length ≤ k := by
  by_cases h0 : n = 0
  · subst h0; simpa [bigIntToBuffer] using hk
  · simp only [bigIntToBuffer, h0, if_false]
    exact natBytes_length n k h

theorem hexDigit_lowerHex (n : Nat) (h : n < 16) : isLowerHexChar (hexDigit n) = true := by
  interval_cases n <;> decide

theorem hexVal_hexDigit (n : Nat) (h : n < 16) : hexVal (hexDigit n) = some n := by
  interval_cases n <;> decide

theorem char_eq_of_toNat_eq (c d : Char) (h : c.toNat = d.toNat) : c = d :=
  Char.eq_of_val_eq (UInt32.ext h)

theorem lowerHex_down (c : Char) (h : isLowerHexChar c = true) :
    downChar c = c ∧ downChar (upChar c) = c := by
  simp only [isLowerHexChar, decide_eq_true_eq] at h
  rcases h with h | h
  · constructor
    · simp only [downChar]
      rw [if_neg (by omega)]
    · have hup : upChar c = c := by
        simp only [upChar]
        rw [if_neg (by omega)]
      rw [hup]
      simp only [downChar]
      rw [if_neg (by omega)]
  · have hsix : c = 'a' ∨ c = 'b' ∨ c = 'c' ∨ c = 'd' ∨ c = 'e' ∨ c = 'f' := by
      have h97 : c.toNat = 97 ∨ c.toNat = 98 ∨ c.toNat = 99 ∨ c.toNat = 100 ∨
          c.toNat = 101 ∨ c.toNat = 102 := by omega
      rcases h97 with h' | h' | h' | h' | h' | h'
      · exact Or.inl (char_eq_of_toNat_eq c 'a' h')
      · exact Or.inr (Or.inl (char_eq_of_toNat_eq c 'b' h'))
      · exact Or.inr (Or.inr (Or.inl (char_eq_of_toNat_eq c 'c' h')))
      · exact Or.inr (Or.inr (Or.inr (Or.inl (char_eq_of_toNat_eq c 'd' h'))))
      · exact Or.inr (Or.inr (Or.inr (Or.inr (Or.inl (char_eq_of_toNat_eq c 'e' h')))))
      · exact Or.inr (Or.inr (Or.inr (Or.inr (Or.inr (char_eq_of_toNat_eq c 'f' h')))))
    rcases hsix with rfl | rfl | rfl | rfl | rfl | rfl <;> decide

theorem bytesToHex_length (l : List Nat) : (bytesToHex l).length = 2 * l.length := by
  induction l with
  | nil => simp [bytesToHex]
  | cons b rest ih => simp [bytesToHex, ih]; ring

theorem bytesToHex_lowerHex (l : List Nat) (h : ∀ b ∈ l, b < 256) :
    ∀ c ∈ bytesToHex l, isLowerHexChar c = true := by
  induction l with
  | nil => simp [bytesToHex]
  | cons b rest ih =>
    intro c hc
    have hb : b < 256 := h b (by simp)
    simp only [bytesToHex, List.mem_cons] at hc
    rcases hc with rfl | rfl | hc
    · exact hexDigit_lowerHex _ (by omega)
    · exact hexDigit_lowerHex _ (Nat.mod_lt _ (by norm_num))
    · exact ih (fun x hx => h x (by simp [hx])) c hc

theorem hexDecodeJS_bytesToHex (l : List Nat) (h : ∀ b ∈ l, b < 256) :
    hexDecodeJS (bytesToHex l) = l := by
  induction l with
  | nil => simp [bytesToHex, hexDecodeJS]
  | cons b rest ih =>
    have hb : b < 256 := h b (by simp)
    simp only [bytesToHex, hexDecodeJS]
    rw [hexVal_hexDigit (b / 16) (by omega), hexVal_hexDigit (b % 16) (Nat.mod_lt _ (by norm_num))]
    simp only [ih (fun x hx => h x (by simp [hx]))]
    congr 1
    omega

theorem toLowerList_lowerHex (s : List Char) (h : ∀ c ∈ s, isLowerHexChar c = true) :
    toLowerList s = s := by
  induction s with
  | nil => rfl
  | cons c rest ih =>
    simp only [toLowerList, List.map_cons]
    rw [(lowerHex_down c (h c (by simp))).1]
    have := ih (fun x hx => h x (by simp [hx]))
    simp only [toLowerList] at this
    rw [this]

theorem readLen_encodeLen (n : Nat) (l : List Nat) :
    readLen (encodeLen n ++ l) = some (n, l) := by
  by_cases h : n < 128
  · simp [encodeLen, readLen, h]
  · have hn0 : n ≠ 0 := by omega
    obtain ⟨hne, -⟩ := natBytesGo_head n n (le_refl n) hn0
    have hlen : (natBytes n).length ≠ 0 := by
      simpa [natBytes, List.length_eq_zero] using hne
    simp only [encodeLen, h, if_false, List.cons_append, readLen]
    rw [if_neg (by omega), if_neg (by omega)]
    rw [if_neg (by simp)]
    have h128 : 128 + (natBytes n).length - 128 = (natBytes n).length := by omega
    rw [h128, List.take_left, List.drop_left, bytesToNat_natBytes]

theorem readTLV_mkTLV (tag : Nat) (content rest : List Nat) :
    readTLV tag (mkTLV tag content ++ rest) = some (content, rest) := by
  have h1 : mkTLV tag content ++ rest = tag :: (encodeLen content.length ++ (content ++ rest)) := by
    simp [mkTLV]
  rw [h1]
  simp only [readTLV, if_pos rfl]
  rw [readLen_encodeLen]
  have h2 : ¬ (content ++ rest).length < content.length := by
    rw [List.length_append]
    omega
  simp [h2, List.take_left, List.drop_left]

theorem parseSPKI_mkSPKI (oid algRest : List Nat) (unusedBits : Nat) (bsData : List Nat) :
    parseSPKI (mkSPKI oid algRest unusedBits bsData) = some bsData := by
  have houter := readTLV_mkTLV 48
    (mkTLV 48 (mkTLV 6 oid ++ algRest) ++ mkTLV 3 (unusedBits :: bsData)) []
  rw [List.append_nil] at houter
  have hinner := readTLV_mkTLV 48 (mkTLV 6 oid ++ algRest) (mkTLV 3 (unusedBits :: bsData))
  have hoid := readTLV_mkTLV 6 oid algRest
  have hbs := readTLV_mkTLV 3 (unusedBits :: bsData) []
  rw [List.append_nil] at hbs
  simp [parseSPKI, mkSPKI, houter, hinner, hoid, hbs]

theorem candidate_1_none : USignatureECDSA.candidate_1 none = 27 := rfl

theorem candidate_2_none : USignatureECDSA.candidate_2 none = 28 := rfl

theorem candidate_1_some (n : Nat) (hn : n ≠ 0) :
    USignatureECDSA.candidate_1 (some n) = (n : Int) * 2 + 35 := by
  simp [USignatureECDSA.candidate_1, jsTruthy, hn]

theorem candidate_2_some (n : Nat) (hn : n ≠ 0) :
    USignatureECDSA.candidate_2 (some n) = (n : Int) * 2 + 36 := by
  simp [USignatureECDSA.candidate_2, jsTruthy, hn]

theorem fromVRS_none_27 (m : ECModel) (digest r s : List Nat) :
    UPublickey.fromVRSGetAddress m digest 27 r s none =
      some (m.keccakAddr (m.recoverPub digest false r s)) := by
  norm_num [UPublickey.fromVRSGetAddress, ethutilEcrecover, calculateSigRecovery]

theorem fromVRS_none_28 (m : ECModel) (digest r s : List Nat) :
    UPublickey.fromVRSGetAddress m digest 28 r s none =
      some (m.keccakAddr (m.recoverPub digest true r s)) := by
  norm_num [UPublickey.fromVRSGetAddress, ethutilEcrecover, calculateSigRecovery]

theorem fromVRS_some_c1 (m : ECModel) (digest r s : List Nat) (n : Nat) :
    UPublickey.fromVRSGetAddress m digest ((n : Int) * 2 + 35) r s (some n) =
      some (m.keccakAddr (m.recoverPub digest false r s)) := by
  have h1 : ¬ ((n : Int) * 2 + 35 = 0 ∨ (n : Int) * 2 + 35 = 1) := by omega
  have h0 : (n : Int) * 2 + 35 - (2 * (n : Int) + 35) = 0 := by ring
  simp only [UPublickey.fromVRSGetAddress, ethutilEcrecover, calculateSigRecovery, h1, if_false,
    h0]
  simp

theorem fromVRS_some_c2 (m : ECModel) (digest r s : List Nat) (n : Nat) :
    UPublickey.fromVRSGetAddress m digest ((n : Int) * 2 + 36) r s (some n) =
      some (m.keccakAddr (m.recoverPub digest true r s)) := by
  have h1 : ¬ ((n : Int) * 2 + 36 = 0 ∨ (n : Int) * 2 + 36 = 1) := by omega
  have h2 : (n : Int) * 2 + 36 - (2 * (n : Int) + 35) = 1 := by ring
  simp only [UPublickey.fromVRSGetAddress, ethutilEcrecover, calculateSigRecovery, h1, if_false,
    h2]
  simp

theorem calculateV_first_match (m : ECModel) (address digest r s : List Nat)
    (chainId : Option Nat) (a1 : List Nat)
    (h1 : UPublickey.fromVRSGetAddress m digest (USignatureECDSA.candidate_1 chainId) r s chainId
      = some a1)
    (ha : a1 = address) :
    USignatureECDSA.calculateV m address digest r s chainId
      = some (USignatureECDSA.candidate_1 chainId) := by
  subst ha
  simp [USignatureECDSA.calculateV, h1]

theorem calculateV_second_match (m : ECModel) (address digest r s : List Nat)
    (chainId : Option Nat) (a1 a2 : List Nat)
    (h1 : UPublickey.fromVRSGetAddress m digest (USignatureECDSA.candidate_1 chainId) r s chainId
      = some a1)
    (hne : a1 ≠ address)
    (h2 : UPublickey.fromVRSGetAddress m digest (USignatureECDSA.candidate_2 chainId) r s chainId
      = some a2)
    (ha : a2 = address) :
    USignatureECDSA.calculateV m address digest r s chainId
      = some (USignatureECDSA.candidate_2 chainId) := by
  subst ha
  simp [USignatureECDSA.calculateV, h1, h2, hne]

theorem calculateV_no_match (m : ECModel) (address digest r s : List Nat)
    (chainId : Option Nat) (a1 a2 : List Nat)
    (h1 : UPublickey.fromVRSGetAddress m digest (USignatureECDSA.candidate_1 chainId) r s chainId
      = some a1)
    (hne1 : a1 ≠ address)
    (h2 : UPublickey.fromVRSGetAddress m digest (USignatureECDSA.candidate_2 chainId) r s chainId
      = some a2)
    (hne2 : a2 ≠ address) :
    USignatureECDSA.calculateV m address digest r s chainId = some (-1) := by
  simp [USignatureECDSA.calculateV, h1, h2, hne1, hne2]

theorem calculateV_some_cases (m : ECModel) (address digest r s : List Nat)
    (chainId : Option Nat) (x : Int)
    (h : USignatureECDSA.calculateV m address digest r s chainId = some x) :
    x = USignatureECDSA.candidate_1 chainId ∨ x = USignatureECDSA.candidate_2 chainId ∨
      x = -1 := by
  simp only [USignatureECDSA.calculateV] at h
  rcases hv1 : UPublickey.fromVRSGetAddress m digest (USignatureECDSA.candidate_1 chainId) r s
      chainId with - | a1
  · rw [hv1] at h
    simp at h
  · rw [hv1] at h
    by_cases he1 : a1 = address
    · simp [he1] at h
      exact Or.inl h.symm
    · simp [he1] at h
      rcases hv2 : UPublickey.fromVRSGetAddress m digest (USignatureECDSA.candidate_2 chainId) r s
          chainId with - | a2
      · rw [hv2] at h
        simp at h
      · rw [hv2] at h
        by_cases he2 : a2 = address
        · simp [he2] at h
          exact Or.inr (Or.inl h.symm)
        · simp [he2] at h
          exact Or.inr (Or.inr h.symm)

/-- C1 (corrected): round-trip recovery.  For every model of the curve
primitives in which public-key recovery at the signing recovery bit returns
the signer's public key and the opposite bit yields a different address,
signing a digest with `NodeWallet.ecsign` and resolving the recovery id via
`USignatureECDSA.calculateV(addressOf(k), digest, r, s, chainId)` returns
exactly the `v` produced by signing — when the chain id is absent, and when
it is present and nonzero.  (At chain id 0 the claim fails: see the
counterexample.) -/
theorem C1_roundtrip_recovery (m : ECModel) (privkey digest : List Nat)
    (chainId : Option Nat) (hchain : chainId ≠ some 0)
    (hcorrect : m.recoverPub digest (m.signRS privkey digest).2.2
        (m.signRS privkey digest).1 (m.signRS privkey digest).2.1 = m.pubOf privkey)
    (hother : m.keccakAddr (m.recoverPub digest (!(m.signRS privkey digest).2.2)
          (m.signRS privkey digest).1 (m.signRS privkey digest).2.1)
        ≠ m.keccakAddr (m.pubOf privkey)) :
    USignatureECDSA.calculateV m (addressOfPrivkey m privkey) digest
        (NodeWallet.ecsign m privkey digest chainId).r
        (NodeWallet.ecsign m privkey digest chainId).s chainId
      = some (NodeWallet.ecsign m privkey digest chainId).v := by
  rcases hsig : m.signRS privkey digest with ⟨r, s, b⟩
  rw [hsig] at hcorrect hother
  simp only at hcorrect hother
  have hecs : NodeWallet.ecsign m privkey digest chainId =
      { r := r, s := s,
        v := match chainId with
          | none => if b then 28 else 27
          | some c => (if b then 36 else 35) + 2 * (c : Int) } := by
    cases chainId with
    | none => simp [NodeWallet.ecsign, ethutilEcsign, hsig]
    | some c => simp [NodeWallet.ecsign, ethutilEcsign, hsig]
  rw [hecs]
  cases chainId with
  | none =>
    cases b with
    | false =>
      have h1 : UPublickey.fromVRSGetAddress m digest (USignatureECDSA.candidate_1 none) r s none
          = some (m.keccakAddr (m.recoverPub digest false r s)) := by
        rw [candidate_1_none]
        exact fromVRS_none_27 m digest r s
      have ha : m.keccakAddr (m.recoverPub digest false r s) = addressOfPrivkey m privkey := by
        rw [hcorrect]
        rfl
      have := calculateV_first_match m (addressOfPrivkey m privkey) digest r s none _ h1 ha
      rw [this, candidate_1_none]
      simp
    | true =>
      have h1 : UPublickey.fromVRSGetAddress m digest (USignatureECDSA.candidate_1 none) r s none
          = some (m.keccakAddr (m.recoverPub digest false r s)) := by
        rw [candidate_1_none]
        exact fromVRS_none_27 m digest r s
      have hne : m.keccakAddr (m.recoverPub digest false r s) ≠ addressOfPrivkey m privkey := by
        simpa [addressOfPrivkey] using hother
      have h2 : UPublickey.fromVRSGetAddress m digest (USignatureECDSA.candidate_2 none) r s none
          = some (m.keccakAddr (m.recoverPub digest true r s)) := by
        rw [candidate_2_none]
        exact fromVRS_none_28 m digest r s
      have ha : m.keccakAddr (m.recoverPub digest true r s) = addressOfPrivkey m privkey := by
        rw [hcorrect]
        rfl
      have := calculateV_second_match m (addressOfPrivkey m privkey) digest r s none _ _ h1 hne
        h2 ha
      rw [this, candidate_2_none]
      simp
  | some n =>
    have hn : n ≠ 0 := by
      intro h
      exact hchain (by rw [h])
    cases b with
    | false =>
      have h1 : UPublickey.fromVRSGetAddress m digest (USignatureECDSA.candidate_1 (some n)) r s
          (some n) = some (m.keccakAddr (m.recoverPub digest false r s)) := by
        rw [candidate_1_some n hn]
        exact fromVRS_some_c1 m digest r s n
      have ha : m.keccakAddr (m.recoverPub digest false r s) = addressOfPrivkey m privkey := by
        rw [hcorrect]
        rfl
      have := calculateV_first_match m (addressOfPrivkey m privkey) digest r s (some n) _ h1 ha
      rw [this, candidate_1_some n hn]
      simp
      ring
    | true =>
      have h1 : UPublickey.fromVRSGetAddress m digest (USignatureECDSA.candidate_1 (some n)) r s
          (some n) = some (m.keccakAddr (m.recoverPub digest false r s)) := by
        rw [candidate_1_some n hn]
        exact fromVRS_some_c1 m digest r s n
      have hne : m.keccakAddr (m.recoverPub digest false r s) ≠ addressOfPrivkey m privkey := by
        simpa [addressOfPrivkey] using hother
      have h2 : UPublickey.fromVRSGetAddress m digest (USignatureECDSA.candidate_2 (some n)) r s
          (some n) = some (m.keccakAddr (m.recoverPub digest true r s)) := by
        rw [candidate_2_some n hn]
        exact fromVRS_some_c2 m digest r s n
      have ha : m.keccakAddr (m.recoverPub digest true r s) = addressOfPrivkey m privkey := by
        rw [hcorrect]
        rfl
      have := calculateV_second_match m (addressOfPrivkey m privkey) digest r s (some n) _ _ h1
        hne h2 ha
      rw [this, candidate_2_some n hn]
      simp
      ring

/-- C1 witness: the round-trip theorem applied to the concrete model
`toyEC`, private key `[7]`, digest `[9]` and an absent chain id, with all
hypotheses discharged by computation. -/
theorem C1_roundtrip_recovery_witness :
    USignatureECDSA.calculateV toyEC (addressOfPrivkey toyEC [7]) [9]
        (NodeWallet.ecsign toyEC [7] [9] none).r
        (NodeWallet.ecsign toyEC [7] [9] none).s none
      = some (NodeWallet.ecsign toyEC [7] [9] none).v :=
  C1_roundtrip_recovery toyEC [7] [9] none (by decide) (by decide) (by decide)

/-- C1 counterexample: with a present chain id of 0, `NodeWallet.ecsign`
encodes `v = 35` (EIP-155 with `chainId === undefined` being the only
legacy case), while `calculateV` — whose truthiness test treats `0n` as
absent — tries candidates 27 and 28, and the underlying `ecrecover` rejects
them for a present chain id; the resolution never returns the produced
`v`. -/
theorem C1_roundtrip_recovery_counterexample :
    (NodeWallet.ecsign toyEC [7] [9] (some 0)).v = 35 ∧
    USignatureECDSA.calculateV toyEC (addressOfPrivkey toyEC [7]) [9]
        (NodeWallet.ecsign toyEC [7] [9] (some 0)).r
        (NodeWallet.ecsign toyEC [7] [9] (some 0)).s (some 0) = none ∧
    USignatureECDSA.calculateV toyEC (addressOfPrivkey toyEC [7]) [9]
        (NodeWallet.ecsign toyEC [7] [9] (some 0)).r
        (NodeWallet.ecsign toyEC [7] [9] (some 0)).s (some 0)
      ≠ some (NodeWallet.ecsign toyEC [7] [9] (some 0)).v := by
  refine ⟨by decide, by decide, by decide⟩

/-- C2 (corrected): recovery-id candidates and trial order.  When `chainId`
is absent the candidates are 27 and 28; when it is present and nonzero they
are `chainId*2+35` and `chainId*2+36`; but when it is present and zero the
JavaScript truthiness test makes the candidates 27 and 28 (not 35 and 36 as
claimed).  The function recovers with `candidate_1` first, returns it when
the derived address byte-equals the target, and otherwise tries
`candidate_2` the same way. -/
theorem C2_candidates_and_order (m : ECModel) (address digest r s : List Nat)
    (chainId : Option Nat) :
    (USignatureECDSA.candidate_1 none = 27 ∧ USignatureECDSA.candidate_2 none = 28) ∧
    (USignatureECDSA.candidate_1 (some 0) = 27 ∧ USignatureECDSA.candidate_2 (some 0) = 28) ∧
    (∀ n : Nat, n ≠ 0 →
      USignatureECDSA.candidate_1 (some n) = (n : Int) * 2 + 35 ∧
      USignatureECDSA.candidate_2 (some n) = (n : Int) * 2 + 36) ∧
    (∀ a1, UPublickey.fromVRSGetAddress m digest (USignatureECDSA.candidate_1 chainId) r s
        chainId = some a1 → a1 = address →
      USignatureECDSA.calculateV m address digest r s chainId
        = some (USignatureECDSA.candidate_1 chainId)) ∧
    (∀ a1 a2, UPublickey.fromVRSGetAddress m digest (USignatureECDSA.candidate_1 chainId) r s
        chainId = some a1 → a1 ≠ address →
      UPublickey.fromVRSGetAddress m digest (USignatureECDSA.candidate_2 chainId) r s chainId
        = some a2 → a2 = address →
      USignatureECDSA.calculateV m address digest r s chainId
        = some (USignatureECDSA.candidate_2 chainId)) := by
  refine ⟨⟨candidate_1_none, candidate_2_none⟩, ⟨rfl, rfl⟩, ?_, ?_, ?_⟩
  · intro n hn
    exact ⟨candidate_1_some n hn, candidate_2_some n hn⟩
  · intro a1 h1 ha
    exact calculateV_first_match m address digest r s chainId a1 h1 ha
  · intro a1 a2 h1 hne h2 ha
    exact calculateV_second_match m address digest r s chainId a1 a2 h1 hne h2 ha

/-- C2 witness: the first-candidate branch evaluated on the concrete model
`constEC`, whose recovery at candidate 27 yields the target address. -/
theorem C2_candidates_and_order_witness :
    USignatureECDSA.calculateV constEC [7] [1] [2] [3] none
      = some (USignatureECDSA.candidate_1 none) :=
  (C2_candidates_and_order constEC [7] [1] [2] [3] none).2.2.2.1 [7] (by decide) (by decide)

/-- C2 counterexample: with a present chain id of 0 the code tries
candidates 27 and 28 — not `0*2+35` and `0*2+36` as the claim states — and
the recovery guard then rejects them, so `calculateV` does not even return a
candidate on a model whose recovery always succeeds. -/
theorem C2_candidates_counterexample :
    USignatureECDSA.candidate_1 (some 0) = 27 ∧
    USignatureECDSA.candidate_2 (some 0) = 28 ∧
    USignatureECDSA.candidate_1 (some 0) ≠ (0 : Int) * 2 + 35 ∧
    USignatureECDSA.calculateV constEC [7] [1] [2] [3] (some 0) = none := by
  refine ⟨rfl, rfl, by decide, by decide⟩

/-- C4 (confirmed): recovery failure is an error, never a partial result.
Once the provider's DER signature decodes to `(r, s)`, if neither candidate
recovery id recovers a public key whose address byte-equals the resolved
target address, `KMSWallets.ecsign` fails with an error; and whenever it
returns a signature, it is a complete `(r, s, v)` triple whose `v` is one of
the two candidates. -/
theorem C4_kms_recovery_failure_is_error (m : ECModel) (derSignature : List Nat)
    (accountAddress : Option (List Nat)) (backendAddress digest : List Nat)
    (chainId : Option Nat) (r s : List Nat)
    (hrs : USignatureECDSA.decodeRS derSignature = some (r, s)) :
    ((∀ a1, UPublickey.fromVRSGetAddress m digest (USignatureECDSA.candidate_1 chainId) r s
        chainId = some a1 → a1 ≠ KMSWallets.resolveAddress accountAddress backendAddress) →
     (∀ a2, UPublickey.fromVRSGetAddress m digest (USignatureECDSA.candidate_2 chainId) r s
        chainId = some a2 → a2 ≠ KMSWallets.resolveAddress accountAddress backendAddress) →
     exceptIsError (KMSWallets.ecsign m derSignature accountAddress backendAddress digest
       chainId) = true) ∧
    (∀ sig, KMSWallets.ecsign m derSignature accountAddress backendAddress digest chainId
        = Except.ok sig →
      sig.r = r ∧ sig.s = s ∧
      (sig.v = USignatureECDSA.candidate_1 chainId ∨
        sig.v = USignatureECDSA.candidate_2 chainId)) := by
  constructor
  · intro h1 h2
    have hcv : USignatureECDSA.calculateV m
          (KMSWallets.resolveAddress accountAddress backendAddress) digest r s chainId = none ∨
        USignatureECDSA.calculateV m
          (KMSWallets.resolveAddress accountAddress backendAddress) digest r s chainId
          = some (-1) := by
      rcases hv1 : UPublickey.fromVRSGetAddress m digest (USignatureECDSA.candidate_1 chainId)
          r s chainId with - | a1
      · left
        simp [USignatureECDSA.calculateV, hv1]
      · have hne1 := h1 a1 hv1
        rcases hv2 : UPublickey.fromVRSGetAddress m digest (USignatureECDSA.candidate_2 chainId)
            r s chainId with - | a2
        · left
          simp [USignatureECDSA.calculateV, hv1, hv2, hne1]
        · right
          exact calculateV_no_match m _ digest r s chainId a1 a2 hv1 hne1 hv2 (h2 a2 hv2)
    rcases hcv with hcv | hcv
    · simp [KMSWallets.ecsign, hrs, hcv, exceptIsError]
    · simp [KMSWallets.ecsign, hrs, hcv, exceptIsError]
  · intro sig hok
    simp only [KMSWallets.ecsign, hrs] at hok
    rcases hv : USignatureECDSA.calculateV m
        (KMSWallets.resolveAddress accountAddress backendAddress) digest r s chainId with - | v
    · rw [hv] at hok
      exact absurd hok (by simp)
    · rw [hv] at hok
      by_cases hm1 : v = -1
      · simp [hm1] at hok
      · simp [hm1] at hok
        subst hok
        refine ⟨rfl, rfl, ?_⟩
        rcases calculateV_some_cases m _ digest r s chainId v hv with hc | hc | hc
        · exact Or.inl hc
        · exact Or.inr hc
        · exact absurd hc hm1

/-- C4 witness: the success branch on concrete inputs — a parseable DER
signature, the model `constEC` whose first-candidate recovery matches the
supplied account address, and an absent chain id — yields the complete
triple with `v = 27`. -/
theorem C4_kms_recovery_failure_is_error_witness :
    (KMSWallets.ecsign constEC [48, 6, 2, 1, 1, 2, 1, 1] (some [7]) [0] [9] none
      = Except.ok { r := [1], s := [1], v := 27 }) ∧
    ({ r := [1], s := [1], v := 27 : ECDSASignature }.v = USignatureECDSA.candidate_1 none ∨
      { r := [1], s := [1], v := 27 : ECDSASignature }.v = USignatureECDSA.candidate_2 none) :=
  ⟨by decide,
    ((C4_kms_recovery_failure_is_error constEC [48, 6, 2, 1, 1, 2, 1, 1] (some [7]) [0] [9]
        none [1] [1] (by decide)).2 { r := [1], s := [1], v := 27 } (by decide)).2.2⟩

theorem isMinimalBE_bigIntToBuffer (n : Nat) : isMinimalBE (bigIntToBuffer n) = true := by
  by_cases h : n = 0
  · subst h
    decide
  · obtain ⟨hne, hhd⟩ := natBytesGo_head n n (le_refl n) h
    simp only [bigIntToBuffer, h, if_false, isMinimalBE, natBytes]
    simp only [Bool.or_eq_true, Bool.and_eq_true, bne_iff_ne, ne_eq, Bool.not_eq_true]
    right
    constructor
    · simpa [List.isEmpty_iff] using hne
    · simpa using hhd

/-- C3 (corrected): low-S canonicalization.  For every byte string parsing
as a DER SEQUENCE of two INTEGERs with content values `r_raw` and `s_raw`,
and provided `s_raw ≤ N` (which always holds for a signature actually
produced over secp256k1 — above `N` the bn.js subtraction goes negative and
`toBuffer` silently serializes the absolute value, breaking the claim; see
the counterexample), `decodeRS` returns `r` with value `r_raw` unchanged,
`s` with value `N - s_raw` when `s_raw > N/2` and `s_raw` otherwise, the
returned `s` value is at most `N/2`, and both outputs are minimal
big-endian buffers. -/
theorem C3_lowS_canonicalization (input rContent sContent : List Nat)
    (hparse : derParseRS input = some (rContent, sContent))
    (hsle : bytesToNat sContent ≤ secp256k1N) :
    ∃ rOut sOut,
      USignatureECDSA.decodeRS input = some (rOut, sOut) ∧
      bytesToNat rOut = bytesToNat rContent ∧
      bytesToNat sOut = (if secp256k1N / 2 < bytesToNat sContent
        then secp256k1N - bytesToNat sContent else bytesToNat sContent) ∧
      bytesToNat sOut ≤ secp256k1N / 2 ∧
      isMinimalBE rOut = true ∧ isMinimalBE sOut = true := by
  simp only [USignatureECDSA.decodeRS, hparse]
  refine ⟨_, _, rfl, bytesToNat_bigIntToBuffer _, ?_, ?_, isMinimalBE_bigIntToBuffer _,
    isMinimalBE_bigIntToBuffer _⟩
  · simp only [bnToBufferInt, bytesToNat_bigIntToBuffer]
    by_cases hgt : secp256k1N / 2 < bytesToNat sContent
    · rw [if_pos hgt]
      rw [if_pos (by exact_mod_cast hgt)]
      omega
    · rw [if_neg hgt]
      rw [if_neg (by exact_mod_cast hgt)]
      omega
  · simp only [bnToBufferInt, bytesToNat_bigIntToBuffer]
    by_cases hgt : secp256k1N / 2 < bytesToNat sContent
    · rw [if_pos (by exact_mod_cast hgt)]
      omega
    · rw [if_neg (by exact_mod_cast hgt)]
      omega

/-- C3 witness: the theorem applied to the concrete DER signature
`SEQUENCE { INTEGER 1, INTEGER 1 }`, whose `s` is already on the low side. -/
theorem C3_lowS_canonicalization_witness :
    derParseRS [48, 6, 2, 1, 1, 2, 1, 1] = some ([1], [1]) ∧
    bytesToNat [1] ≤ secp256k1N ∧
    (∃ rOut sOut,
      USignatureECDSA.decodeRS [48, 6, 2, 1, 1, 2, 1, 1] = some (rOut, sOut) ∧
      bytesToNat rOut = bytesToNat [1] ∧
      bytesToNat sOut = (if secp256k1N / 2 < bytesToNat [1]
        then secp256k1N - bytesToNat [1] else bytesToNat [1]) ∧
      bytesToNat sOut ≤ secp256k1N / 2 ∧
      isMinimalBE rOut = true ∧ isMinimalBE sOut = true) :=
  ⟨by decide, by decide,
    C3_lowS_canonicalization [48, 6, 2, 1, 1, 2, 1, 1] [1] [1] (by decide) (by decide)⟩

/-- C3 counterexample: a parseable DER signature whose `s_raw` equals `2N`.
The bn.js subtraction `N - s_raw` is negative and `toBuffer` serializes its
absolute value `N`, so the returned `s` exceeds `N/2` and differs from the
integer `N - s_raw` — refuting the claim as stated for inputs above the
curve order. -/
theorem C3_lowS_canonicalization_counterexample :
    USignatureECDSA.decodeRS
        (mkTLV 48 (mkTLV 2 [1] ++ mkTLV 2 (0 :: natBytes (2 * secp256k1N))))
      = some ([1], natBytes secp256k1N) ∧
    secp256k1N / 2 < bytesToNat (natBytes secp256k1N) ∧
    (secp256k1N : Int) - (bytesToNat (0 :: natBytes (2 * secp256k1N)) : Int)
      ≠ (bytesToNat (natBytes secp256k1N) : Int) := by
  have h1 : derParseRS (mkTLV 48 (mkTLV 2 [1] ++ mkTLV 2 (0 :: natBytes (2 * secp256k1N))))
      = some ([1], 0 :: natBytes (2 * secp256k1N)) := by decide
  refine ⟨?_, by decide, by decide⟩
  simp only [USignatureECDSA.decodeRS, h1]
  rw [if_pos (by decide)]
  have h2 : bigIntToBuffer (bytesToNat [1]) = [1] := by decide
  have h3 : bnToBufferInt ((secp256k1N : Int) - (bytesToNat (0 :: natBytes
      (2 * secp256k1N)) : Int)) = natBytes secp256k1N := by decide
  rw [h2, h3]

/-- C6 (confirmed): DER public-key decoding.  `fromPublickeyDerEncoding`
fails with a parse error exactly when the input does not verify against the
SubjectPublicKeyInfo schema; when it verifies, the returned key is the BIT
STRING payload with exactly its first byte (the `0x04` uncompressed-point
marker) removed.  In particular every well-formed SPKI assembled by
`mkSPKI` — with any surplus elements after the first algorithm-identifier
OID, so including the standard two-OID secp256k1 form returned by AWS KMS —
decodes to its BIT STRING data minus the marker byte. -/
theorem C6_der_publickey_decoding (input : List Nat) :
    (exceptIsError (UPublickey.fromPublickeyDerEncoding input) = true ↔
      parseSPKI input = none) ∧
    (∀ payload, parseSPKI input = some payload →
      UPublickey.fromPublickeyDerEncoding input = Except.ok (payload.drop 1)) ∧
    (∀ oid algRest unusedBits bsData,
      UPublickey.fromPublickeyDerEncoding (mkSPKI oid algRest unusedBits bsData)
        = Except.ok (bsData.drop 1)) := by
  refine ⟨⟨?_, ?_⟩, ?_, ?_⟩
  · intro h
    rcases hp : parseSPKI input with - | payload
    · rfl
    · simp [UPublickey.fromPublickeyDerEncoding, hp, exceptIsError] at h
  · intro h
    simp [UPublickey.fromPublickeyDerEncoding, h, exceptIsError]
  · intro payload hp
    simp [UPublickey.fromPublickeyDerEncoding, hp]
  · intro oid algRest u bs
    simp [UPublickey.fromPublickeyDerEncoding, parseSPKI_mkSPKI]

/-- C6 witness: the success branch applied to a concrete SPKI blob in the
standard secp256k1 shape — the algorithm-identifier SEQUENCE holds the
id-ecPublicKey OID (1.2.840.10045.2.1) and the named-curve OID (1.3.132.0.10),
and the BIT STRING payload is `[0x04, 0xAA, 0xBB]` — which verifies and
decodes to the raw point `[0xAA, 0xBB]`. -/
theorem C6_der_publickey_decoding_witness :
    parseSPKI [48, 24, 48, 16, 6, 7, 42, 134, 72, 206, 61, 2, 1, 6, 5, 43, 129, 4, 0, 10,
        3, 4, 0, 4, 170, 187] = some [4, 170, 187] ∧
    UPublickey.fromPublickeyDerEncoding [48, 24, 48, 16, 6, 7, 42, 134, 72, 206, 61, 2, 1,
        6, 5, 43, 129, 4, 0, 10, 3, 4, 0, 4, 170, 187]
      = Except.ok ([4, 170, 187].drop 1) :=
  ⟨by decide,
    (C6_der_publickey_decoding [48, 24, 48, 16, 6, 7, 42, 134, 72, 206, 61, 2, 1, 6, 5,
        43, 129, 4, 0, 10, 3, 4, 0, 4, 170, 187]).2.1
      [4, 170, 187] (by decide)⟩

/-- C7 (corrected): derivation-path formatting.  For the current
`@web3-kms-signer/hd-wallets` `UBIP44.keyId`, the compact string `"4-67"`
maps to `4'/0/67`, a bare `"67"` maps to `0'/0/67` (account defaulting to
0), the object forms agree with the string forms, and every string matching
neither pattern fails with the format error.  (The legacy pre-monorepo copy
of `UBIP44.keyId` instead prefixes the path with `m/44'/0'/`: see the
counterexample.) -/
theorem C7_keyId_formatting :
    UBIP44.keyId (BIP44ShortId.str "4-67".data)
      = Except.ok ("4".data ++ pathInfix ++ "67".data) ∧
    UBIP44.keyId (BIP44ShortId.str "67".data)
      = Except.ok ('0' :: pathInfix ++ "67".data) ∧
    UBIP44.keyId (BIP44ShortId.obj (some 4) 67) = UBIP44.keyId (BIP44ShortId.str "4-67".data) ∧
    UBIP44.keyId (BIP44ShortId.obj none 67) = UBIP44.keyId (BIP44ShortId.str "67".data) ∧
    exceptIsError (UBIP44.keyId (BIP44ShortId.str "bad".data)) = true ∧
    (∀ s, matchesAccountDashIndex s = false → allDigits1 s = false →
      exceptIsError (UBIP44.keyId (BIP44ShortId.str s)) = true) := by
  refine ⟨by decide, by decide, by decide, by decide, by decide, ?_⟩
  intro s h1 h2
  simp [UBIP44.keyId, h1, h2, exceptIsError]

/-- C7 witness: the failure branch of the formatting theorem applied to the
concrete non-matching string `"zz"`. -/
theorem C7_keyId_formatting_witness :
    matchesAccountDashIndex ('z' :: 'z' :: []) = false ∧
    allDigits1 ('z' :: 'z' :: []) = false ∧
    exceptIsError (UBIP44.keyId (BIP44ShortId.str ('z' :: 'z' :: []))) = true :=
  ⟨by decide, by decide,
    C7_keyId_formatting.2.2.2.2.2 ('z' :: 'z' :: []) (by decide) (by decide)⟩

/-- C7 counterexample: the repository's legacy `src/Utils` copy of
`UBIP44.keyId` returns `m/44'/0'/4'/0/67` for the input `"4-67"`, not the
claimed `4'/0/67`. -/
theorem C7_keyId_formatting_counterexample :
    UBIP44.keyIdLegacy (BIP44ShortId.str "4-67".data)
      ≠ Except.ok ("4".data ++ pathInfix ++ "67".data) ∧
    UBIP44.keyIdLegacy (BIP44ShortId.str "4-67".data)
      = Except.ok ('m' :: '/' :: '4' :: '4' :: tickChar :: '/' :: '0' :: tickChar :: '/' ::
          ("4".data ++ pathInfix ++ "67".data)) := by
  exact ⟨by decide, by decide⟩

/-- C8 (confirmed): chain-id noninterference for message and digest
signing.  A `Signer` built over the same wallet with any two chain-id
configurations produces identical `signDigest` and `signMessage` results
(both in the src tree and in the published dist): these paths call the
wallet's `ecsign` without a chain id, so the configured chain id never
reaches the signing operation. -/
theorem C8_chainId_noninterference (w : WalletEcsign) (c c' : Option Nat)
    (account : SignerAccount) (digest : BufferOrString) (H : List Char → List Nat)
    (message : List Char) :
    Signer.signDigest (Signer.make w c) account digest
      = Signer.signDigest (Signer.make w c') account digest ∧
    Signer.signMessage H (Signer.make w c) account message
      = Signer.signMessage H (Signer.make w c') account message ∧
    Signer.signDigestDist (Signer.make w c) account digest
      = Signer.signDigestDist (Signer.make w c') account digest ∧
    Signer.signMessageDist H (Signer.make w c) account message
      = Signer.signMessageDist H (Signer.make w c') account message :=
  ⟨rfl, rfl, rfl, rfl⟩

theorem toLower_applyChecksumCase (a : List Char) :
    ∀ h, (∀ c ∈ a, isLowerHexChar c = true) →
      toLowerList (applyChecksumCase a h) = a := by
  induction a with
  | nil =>
    intro h _
    cases h <;> rfl
  | cons c cs ih =>
    intro h ha
    have hc := ha c (by simp)
    have hcs : ∀ x ∈ cs, isLowerHexChar x = true := fun x hx => ha x (by simp [hx])
    cases h with
    | nil =>
      simp only [applyChecksumCase, toLowerList, List.map_cons]
      rw [(lowerHex_down c hc).1]
      have := ih [] hcs
      simp only [toLowerList] at this
      rw [this]
    | cons hh hs =>
      simp only [applyChecksumCase, toLowerList, List.map_cons]
      by_cases h8 : 8 ≤ hh
      · rw [if_pos h8, (lowerHex_down c hc).2]
        have := ih hs hcs
        simp only [toLowerList] at this
        rw [this]
      · rw [if_neg h8, (lowerHex_down c hc).1]
        have := ih hs hcs
        simp only [toLowerList] at this
        rw [this]

/-- C9 (confirmed): checksum idempotence.  For every 20-byte (indeed every
byte-valued) address, lower-casing the EIP-55 checksummed hex form and
applying `UAddress.getChecksumAddress` again — through the
`UAddress.fromAddress` hex normalization — reproduces the same string,
for every keccak nibble function. -/
theorem C9_checksum_idempotence (H : List Char → List Nat) (addr : List Nat)
    (hb : ∀ b ∈ addr, b < 256) :
    UAddress.getChecksumAddress H
        (UAddress.fromAddressGetAddress
          (Sum.inr (toLowerList (UAddress.getChecksumAddress H addr))))
      = UAddress.getChecksumAddress H addr := by
  have hhexlower := bytesToHex_lowerHex addr hb
  have hA : UAddress.getAddressHex addr = '0' :: 'x' :: bytesToHex addr := by
    simp only [UAddress.getAddressHex, toLowerList, List.map_cons]
    rw [show downChar '0' = '0' from rfl, show downChar 'x' = 'x' from rfl]
    have := toLowerList_lowerHex (bytesToHex addr) hhexlower
    simp only [toLowerList] at this
    rw [this]
  have hB : UAddress.getChecksumAddress H addr
      = '0' :: 'x' :: applyChecksumCase (bytesToHex addr) (H (bytesToHex addr)) := by
    simp only [UAddress.getChecksumAddress, toChecksumAddress, hA, stripHexPrefix]
    rw [toLowerList_lowerHex (bytesToHex addr) hhexlower]
  have hC : toLowerList (UAddress.getChecksumAddress H addr)
      = '0' :: 'x' :: bytesToHex addr := by
    rw [hB]
    simp only [toLowerList, List.map_cons]
    rw [show downChar '0' = '0' from rfl, show downChar 'x' = 'x' from rfl]
    have := toLower_applyChecksumCase (bytesToHex addr) (H (bytesToHex addr)) hhexlower
    simp only [toLowerList] at this
    rw [this]
  rw [hC]
  have hrep : replaceFirst0x ('0' :: 'x' :: bytesToHex addr) = bytesToHex addr := by
    simp [replaceFirst0x]
  have hD : UAddress.fromAddressGetAddress (Sum.inr ('0' :: 'x' :: bytesToHex addr)) = addr := by
    simp only [UAddress.fromAddressGetAddress, UBuffer.bufferOrHex, hrep]
    exact hexDecodeJS_bytesToHex addr hb
  rw [hD]

/-- C9 witness: the idempotence theorem applied to a concrete 20-byte
address and a concrete nibble function that upper-cases every position. -/
theorem C9_checksum_idempotence_witness :
    UAddress.getChecksumAddress (fun _ => List.replicate 40 15)
        (UAddress.fromAddressGetAddress
          (Sum.inr (toLowerList (UAddress.getChecksumAddress (fun _ => List.replicate 40 15)
            [171, 205, 18, 52, 86, 120, 144, 171, 205, 239, 1, 35, 69, 103, 137, 171, 205,
              239, 18, 52]))))
      = UAddress.getChecksumAddress (fun _ => List.replicate 40 15)
          [171, 205, 18, 52, 86, 120, 144, 171, 205, 239, 1, 35, 69, 103, 137, 171, 205,
            239, 18, 52] :=
  C9_checksum_idempotence (fun _ => List.replicate 40 15)
    [171, 205, 18, 52, 86, 120, 144, 171, 205, 239, 1, 35, 69, 103, 137, 171, 205, 239, 18, 52]
    (by decide)

theorem replaceFirst0x_cons (c r1 : Char) (rtail : List Char) :
    replaceFirst0x (c :: r1 :: rtail)
      = if c = '0' ∧ r1 = 'x' then rtail else c :: replaceFirst0x (r1 :: rtail) := rfl

theorem has0x_cons (c r1 : Char) (rtail : List Char) :
    has0x (c :: r1 :: rtail)
      = if c = '0' ∧ r1 = 'x' then true else has0x (r1 :: rtail) := rfl

theorem replaceFirst0x_no0x (s : List Char) (h : has0x s = false) :
    replaceFirst0x s = s := by
  induction s with
  | nil => rfl
  | cons c rest ih =>
    cases rest with
    | nil => rfl
    | cons r1 rtail =>
      rw [has0x_cons] at h
      by_cases hc : c = '0' ∧ r1 = 'x'
      · rw [if_pos hc] at h
        exact absurd h (by simp)
      · rw [if_neg hc] at h
        rw [replaceFirst0x_cons, if_neg hc, ih h]

theorem replaceFirst0x_insert (a : List Char) :
    ∀ b, has0x a = false → replaceFirst0x (a ++ '0' :: 'x' :: b) = a ++ b := by
  induction a with
  | nil =>
    intro b _
    simp only [List.nil_append]
    rw [replaceFirst0x_cons, if_pos ⟨rfl, rfl⟩]
  | cons c a' ih =>
    intro b h
    cases a' with
    | nil =>
      simp only [List.cons_append, List.nil_append]
      have hc : ¬ (c = '0' ∧ '0' = 'x') := by
        rintro ⟨-, h2⟩
        exact absurd h2 (by decide)
      rw [replaceFirst0x_cons, if_neg hc, replaceFirst0x_cons, if_pos ⟨rfl, rfl⟩]
    | cons c2 a'' =>
      rw [has0x_cons] at h
      by_cases hc : c = '0' ∧ c2 = 'x'
      · rw [if_pos hc] at h
        exact absurd h (by simp)
      · rw [if_neg hc] at h
        simp only [List.cons_append]
        rw [replaceFirst0x_cons, if_neg hc]
        have := ih b h
        simp only [List.cons_append] at this
        rw [this]

/-- C10 (confirmed): hex-input normalization at the public interface.
`UBuffer.bufferOrHex` returns Buffers unchanged; on strings it removes the
first occurrence of the substring `0x` wherever it occurs (a string with no
`0x` is hex-decoded as-is) and hex-decodes the remainder; and this
normalization is what `Signer.signDigest`, `UPublickey.fromPublickey`,
`UPublickey.fromPrivatekey` and `UAddress.fromAddress` all apply to their
inputs. -/
theorem C10_bufferOrHex_normalization (m : ECModel) :
    (∀ buf : List Nat, UBuffer.bufferOrHex (Sum.inl buf) = buf) ∧
    (∀ a b : List Char, has0x a = false →
      UBuffer.bufferOrHex (Sum.inr (a ++ '0' :: 'x' :: b)) = hexDecodeJS (a ++ b)) ∧
    (∀ s : List Char, has0x s = false →
      UBuffer.bufferOrHex (Sum.inr s) = hexDecodeJS s) ∧
    (∀ sg account d, Signer.signDigest sg account d
      = Signer.signDigest sg account (Sum.inl (UBuffer.bufferOrHex d))) ∧
    (∀ i, UPublickey.fromPublickeyGetPublickey i = UBuffer.bufferOrHex i) ∧
    (∀ i, UPublickey.fromPrivatekeyGetPublickey m i = m.pubOf (UBuffer.bufferOrHex i)) ∧
    (∀ i, UAddress.fromAddressGetAddress i = UBuffer.bufferOrHex i) := by
  refine ⟨fun _ => rfl, ?_, ?_, fun _ _ _ => rfl, fun _ => rfl, fun _ => rfl, fun _ => rfl⟩
  · intro a b h
    simp only [UBuffer.bufferOrHex, replaceFirst0x_insert a b h]
  · intro s h
    simp only [UBuffer.bufferOrHex, replaceFirst0x_no0x s h]

/-- C10 witness: the first-occurrence removal evaluated on the concrete
string `"ab0xcd"`, whose `0x` sits in the middle: the decoded buffer is
that of `"abcd"`. -/
theorem C10_bufferOrHex_normalization_witness :
    has0x ('a' :: 'b' :: []) = false ∧
    UBuffer.bufferOrHex (Sum.inr (('a' :: 'b' :: []) ++ '0' :: 'x' :: 'c' :: 'd' :: []))
      = hexDecodeJS (('a' :: 'b' :: []) ++ 'c' :: 'd' :: []) :=
  ⟨by decide,
    (C10_bufferOrHex_normalization toyEC).2.1 ('a' :: 'b' :: []) ('c' :: 'd' :: [])
      (by decide)⟩

set_option maxRecDepth 8192 in
theorem asUintN256_asIntN256 (n : Nat) : asUintN256 (asIntN256 n) = n % 2 ^ 256 := by
  simp only [asIntN256, asUintN256]
  split
  · omega
  · omega

theorem toUnsigned_fromSigned (buf : List Nat) :
    ethutilToUnsigned (ethutilFromSigned buf) = bigIntToBuffer (bytesToNat buf % 2 ^ 256) := by
  simp only [ethutilToUnsigned, ethutilFromSigned, asUintN256_asIntN256]

theorem padded_hex_length (buf : List Nat) :
    (padStartList 64 '0' (bytesToHex (ethutilToUnsigned (ethutilFromSigned buf)))).length
      = 64 := by
  rw [toUnsigned_fromSigned]
  have hpow : (2 : Nat) ^ 256 = 256 ^ 32 := by norm_num
  have hlt : bytesToNat buf % 2 ^ 256 < 256 ^ 32 := by
    rw [← hpow]
    exact Nat.mod_lt _ (by positivity)
  have hblen := bigIntToBuffer_length (bytesToNat buf % 2 ^ 256) 32 (by norm_num) hlt
  have hhex := bytesToHex_length (bigIntToBuffer (bytesToNat buf % 2 ^ 256))
  simp only [padStartList, List.length_append, List.length_replicate]
  omega

/-- C5 (corrected): signDigest output format.  The published
`@web3-kms-signer/core` dist `Signer.signDigest` returns `0x` followed by
the hex of `r` zero-padded to 32 bytes, the hex of `s` zero-padded to 32
bytes, and the hex of `v` as minimal bytes padded to at least one byte —
and is therefore 132 characters (a 65-byte signature) whenever the wallet's
`v` is 27 or 28, which carries over to `signMessage` since it delegates to
`signDigest` on the hashed message.  (The legacy src-tree `Signer.signDigest`
performs no padding: see the counterexample.) -/
theorem C5_signDigest_format (sg : Signer) (account : SignerAccount) (d : BufferOrString)
    (H : List Char → List Nat) (message : List Char) :
    (Signer.signDigestDist sg account d
      = '0' :: 'x' :: (padStartList 64 '0' (bytesToHex (bigIntToBuffer
            (bytesToNat (sg.wallets account (UBuffer.bufferOrHex d) none).r % 2 ^ 256)))
        ++ padStartList 64 '0' (bytesToHex (bigIntToBuffer
            (bytesToNat (sg.wallets account (UBuffer.bufferOrHex d) none).s % 2 ^ 256)))
        ++ padStartList 2 '0' (bytesToHex (bigIntToBuffer
            (sg.wallets account (UBuffer.bufferOrHex d) none).v.toNat)))) ∧
    (((sg.wallets account (UBuffer.bufferOrHex d) none).v = 27 ∨
        (sg.wallets account (UBuffer.bufferOrHex d) none).v = 28) →
      (Signer.signDigestDist sg account d).length = 132) ∧
    (Signer.signMessageDist H sg account message
      = Signer.signDigestDist sg account (Sum.inl (H message))) := by
  refine ⟨?_, ?_, rfl⟩
  · simp only [Signer.signDigestDist, toUnsigned_fromSigned]
  · intro hv
    have h1 := padded_hex_length (sg.wallets account (UBuffer.bufferOrHex d) none).r
    have h2 := padded_hex_length (sg.wallets account (UBuffer.bufferOrHex d) none).s
    have h3 : (padStartList 2 '0' (bytesToHex (bigIntToBuffer
        ((sg.wallets account (UBuffer.bufferOrHex d) none).v.toNat)))).length = 2 := by
      rcases hv with hv | hv <;> rw [hv] <;> decide
    simp only [Signer.signDigestDist, List.length_cons, List.length_append]
    omega

/-- C5 witness: the padded-format theorem evaluated with the concrete
wallet `toyWallet` (which returns `v = 27`): the dist signature string is
132 characters long. -/
theorem C5_signDigest_format_witness :
    ((({ wallets := toyWallet, common := none } : Signer).wallets
        { keyId := [], address := none } (UBuffer.bufferOrHex (Sum.inl [0])) none).v = 27 ∨
      (({ wallets := toyWallet, common := none } : Signer).wallets
        { keyId := [], address := none } (UBuffer.bufferOrHex (Sum.inl [0])) none).v = 28) ∧
    (Signer.signDigestDist { wallets := toyWallet, common := none }
        { keyId := [], address := none } (Sum.inl [0])).length = 132 :=
  ⟨Or.inl (by decide),
    (C5_signDigest_format { wallets := toyWallet, common := none }
        { keyId := [], address := none } (Sum.inl [0]) (fun _ => []) []).2.1
      (Or.inl (by decide))⟩

set_option maxRecDepth 8192 in
/-- C5 counterexample: the legacy src-tree `Signer.signDigest` emits
minimal-length hex with no padding, so with a wallet returning the one-byte
`r = 0x01`, `s = 0x02`, `v = 27` its output is the 8-character `0x01021b`
rather than the claimed zero-padded 132-character form. -/
theorem C5_signDigest_format_counterexample :
    Signer.signDigest { wallets := toyWallet, common := none }
        { keyId := [], address := none } (Sum.inl [0])
      ≠ '0' :: 'x' :: (padStartList 64 '0' (bytesToHex (bigIntToBuffer 1))
          ++ padStartList 64 '0' (bytesToHex (bigIntToBuffer 2))
          ++ padStartList 2 '0' (bytesToHex (bigIntToBuffer 27))) ∧
    (Signer.signDigest { wallets := toyWallet, common := none }
        { keyId := [], address := none } (Sum.inl [0])).length = 8 :=
  ⟨by decide, by decide⟩
